import Mathlib

attribute [local semireducible] Rat.mul Rat.inv Rat.add Rat.sub

/-!
Verification of the Markowitz portfolio bot (`src/index.js`).

The pipeline under verification: ticker resolution (`convertTickersToIds`),
price acquisition with caching and rate-limit retry (`fetchPrices`),
log-return computation (`computeReturns`), sample covariance
(`calculateCovarianceMatrix`) and the closed-form global minimum-variance
optimizer (`optimizePortfolio`).

Embedding conventions:
* JavaScript numbers are modelled by an arbitrary field `α` with decidable
  equality (the intended denotation is `ℝ`; concrete evaluations use `ℚ`).
  `Math.log` is an abstract parameter `log : α → α`, since every claim under
  verification is independent of the particular logarithm.
* A JavaScript object used as a map (`prices`) is an association list with
  pairwise-distinct keys in insertion order, exactly the observable object
  semantics; `Object.keys` is `List.map Prod.fst`.
* Thrown `Error`s are the `JsError` inductive, one constructor per distinct
  message template in the source; functions that can throw return `Except`.
* `mathjs` matrix operations are given their exact-arithmetic meaning on
  `Matrix (Fin T) (Fin N) α`; `inv` is inversion via determinant and
  adjugate, which fails exactly on singular input, matching `mathjs.inv`'s
  raising on a zero determinant.
* Timestamps (`Date.now()`) are natural-number milliseconds; `await delay`
  advances the clock.
-/

/-- Error kinds of the program, one constructor per distinct `Error` message
template in `src/index.js`. -/
inductive JsError where
  /-- Line 110: price data has fewer than 2 points for this asset and window. -/
  | insufficientData (assetId : String) (days : Nat)
  /-- Line 124: upstream failure message, or the fallback message that the
  coin id could not be found. -/
  | notFoundOrUpstream (assetId : String) (upstreamMsg : Option String)
  /-- Line 130: data could not be fetched after the maximum number of attempts. -/
  | retryExhausted (assetId : String) (attempts : Nat)
  /-- Line 149: not enough history to compute returns. -/
  | insufficientHistory
  /-- Line 176: no return data to optimize over. -/
  | emptyReturns
  /-- Line 188: portfolio computation failed (singular covariance). -/
  | singularCovariance
  /-- Line 84: some tickers could not be resolved. -/
  | resolutionError (missing : List String)
deriving DecidableEq

/-- An asset of the CoinGecko catalog as used by `convertTickersToIds`:
only `id` and `symbol` are consulted. -/
structure Coin where
  id : String
  symbol : String
deriving DecidableEq

/-- Resolution of one ticker (body of the loop in `convertTickersToIds`,
lines 63-81): case-normalize, first look for a coin whose `id` equals the
ticker, only then for one whose `symbol` does. -/
def resolveTicker (catalog : List Coin) (ticker : String) : Option String :=
  let lowerTicker := ticker.toLower
  match catalog.find? fun coin => coin.id = lowerTicker with
  | some coin => some coin.id
  | none =>
    match catalog.find? fun coin => coin.symbol = lowerTicker with
    | some coin => some coin.id
    | none => none

/-- Model of `convertTickersToIds` (lines 59-88): resolve every ticker,
collect the failures, and fail with the whole missing list if any ticker
was unresolved. -/
def convertTickersToIds (catalog : List Coin) (tickers : List String) :
    Except JsError (List String) :=
  let results := tickers.map fun t => (t, resolveTicker catalog t)
  let notFound := (results.filter fun r => r.2.isNone).map Prod.fst
  if notFound.isEmpty then .ok (results.filterMap Prod.snd)
  else .error (.resolutionError notFound)

/-- Outcome of one `coinGeckoApi.get` call for a market chart (line 108):
the promise resolves with a body whose `prices` field may be absent, or
rejects with an HTTP response (status and optional `data.error`), or rejects
with no response at all (network failure). Each price point is a
(timestamp, price) pair. -/
inductive AxiosResult (α : Type) where
  | ok (pricesField : Option (List (α × α)))
  | errResp (status : Nat) (dataError : Option String)
  | errNoResp
deriving DecidableEq

/-- An exception as it reaches the `catch` at line 117: either the
insufficient-data error thrown at line 110 (a plain `Error`, no `.response`
field), or an axios rejection with a response, or one without. -/
inductive JsThrown where
  | insufficientData (assetId : String) (days : Nat)
  | httpErr (status : Nat) (dataError : Option String)
  | networkErr
deriving DecidableEq

/-- Body of the `try` block at lines 107-116 for one upstream call: extract
the per-point prices when there are at least 2 data points, otherwise throw
the insufficient-data error; axios rejections propagate. -/
def tryBody {α : Type} (resp : AxiosResult α) (assetId : String) (days : Nat) :
    Except JsThrown (List α) :=
  match resp with
  | .ok none => .error (.insufficientData assetId days)
  | .ok (some pairs) =>
    if pairs.length < 2 then .error (.insufficientData assetId days)
    else .ok (pairs.map Prod.snd)
  | .errResp status msg => .error (.httpErr status msg)
  | .errNoResp => .error .networkErr

/-- Maximum number of upstream attempts per asset (line 103). -/
def maxRetries : Nat := 3

/-- The retry loop of `fetchPrices` (lines 106-131) for a single asset.
`upstream k` is the outcome of the `k`-th network call for this asset;
`retries` counts prior rate-limited attempts, `waited` accumulates the
backoff delays in milliseconds. The fuel argument is `maxRetries - retries`,
so the recursion mirrors `while (retries < maxRetries && !success)`.
On a 429 response the loop waits `2 ^ (retries + 1)` seconds and retries;
any other exception is rethrown at line 124 with the upstream `data.error`
message when one exists. Exhaustion throws the line-130 error. -/
def fetchLoop {α : Type} (upstream : Nat → AxiosResult α) (assetId : String)
    (days : Nat) : Nat → Nat → Nat → Except JsError (List α × Nat)
  | 0, _retries, _waited => .error (.retryExhausted assetId maxRetries)
  | fuel + 1, retries, waited =>
    match tryBody (upstream retries) assetId days with
    | .ok series => .ok (series, waited)
    | .error e =>
      match e with
      | .httpErr status msg =>
        if status = 429 then
          fetchLoop upstream assetId days fuel (retries + 1)
            (waited + 2 ^ (retries + 1) * 1000)
        else .error (.notFoundOrUpstream assetId msg)
      | .insufficientData _ _ => .error (.notFoundOrUpstream assetId none)
      | .networkErr => .error (.notFoundOrUpstream assetId none)

/-- Cache time-to-live in milliseconds (line 33): 5 minutes. -/
def CACHE_TTL : Nat := 5 * 60 * 1000

/-- One value of the `priceCache` map (line 115). -/
structure CacheEntry (α : Type) where
  data : List α
  timestamp : Nat
deriving DecidableEq

/-- Lookup in an association list (denotation of `Map.get` / object access). -/
def lookupA {κ β : Type} [DecidableEq κ] (k : κ) : List (κ × β) → Option β
  | [] => none
  | (k', v) :: rest => if k' = k then some v else lookupA k rest

/-- Insertion into an association list: a present key keeps its position and
gets the new value, a new key is appended. This is the observable semantics
of both `Map.set` and object property assignment. -/
def insertA {κ β : Type} [DecidableEq κ] (k : κ) (v : β) :
    List (κ × β) → List (κ × β)
  | [] => [(k, v)]
  | (k', v') :: rest =>
    if k' = k then (k, v) :: rest else (k', v') :: insertA k v rest

/-- The cache-miss path of `fetchPrices` for one asset (lines 102-131):
run the retry loop, and on success store the fresh series in the cache
under `(assetId, days)` with the current timestamp (line 115). The clock
advances by the accumulated backoff delays. -/
def fetchFresh {α : Type} (upstream : String → Nat → Nat → AxiosResult α)
    (assetId : String) (days : Nat)
    (cache : List ((String × Nat) × CacheEntry α)) (now : Nat) :
    Except JsError (List α × List ((String × Nat) × CacheEntry α) × Nat) :=
  match fetchLoop (upstream assetId days) assetId days maxRetries 0 0 with
  | .error e => .error e
  | .ok (series, waited) =>
    .ok (series, insertA (assetId, days) ⟨series, now + waited⟩ cache,
         now + waited)

/-- Model of `fetchPrices` (lines 92-134). Assets are processed sequentially;
for each, the cache is consulted under the key `(assetId, days)` (the string
key template of line 95 is injective in the pair, since `days` contains no
dash), a fresh entry (strictly younger than `CACHE_TTL`) is used as is, and
otherwise the retry loop runs and its result is stored. The accumulator
`prices` is the object being built; on any per-asset failure the whole batch
fails. Returns the mapping, the final cache and the final clock. -/
def fetchPrices {α : Type} [DecidableEq α]
    (upstream : String → Nat → Nat → AxiosResult α) (days : Nat) :
    List String → List (String × List α) →
    List ((String × Nat) × CacheEntry α) → Nat →
    Except JsError
      (List (String × List α) × List ((String × Nat) × CacheEntry α) × Nat)
  | [], prices, cache, now => .ok (prices, cache, now)
  | assetId :: rest, prices, cache, now =>
    match lookupA (assetId, days) cache with
    | some entry =>
      if now - entry.timestamp < CACHE_TTL then
        fetchPrices upstream days rest (insertA assetId entry.data prices)
          cache now
      else
        match fetchFresh upstream assetId days cache now with
        | .error e => .error e
        | .ok (series, cache', now') =>
          fetchPrices upstream days rest (insertA assetId series prices)
            cache' now'
    | none =>
      match fetchFresh upstream assetId days cache now with
      | .error e => .error e
      | .ok (series, cache', now') =>
        fetchPrices upstream days rest (insertA assetId series prices)
          cache' now'

/-- The minimum series length over a price mapping (lines 141-146; the
source starts from `Infinity` and lowers, which on a non-empty mapping is
the minimum of the lengths; the empty case is never reached). -/
def minSeriesLength {α : Type} : List (String × List α) → Nat
  | [] => 0
  | p :: rest => rest.foldl (fun acc q => Nat.min acc q.2.length) p.2.length

/-- Model of `computeReturns` (lines 136-164): an empty mapping yields an
empty matrix (line 139); a common trimmed length below 2 throws (line 149);
otherwise every series is truncated to its most recent `minLength` samples
(line 155, `slice(length - minLength)`) and row `i` holds
`log (p[i+1] / p[i])` of every truncated series, columns in key order. -/
def computeReturns {α : Type} [Field α] (log : α → α)
    (prices : List (String × List α)) : Except JsError (List (List α)) :=
  if prices.isEmpty then .ok []
  else
    let minLength := minSeriesLength prices
    if minLength < 2 then .error .insufficientHistory
    else
      let trunc := prices.map fun p => (p.1, p.2.drop (p.2.length - minLength))
      .ok <| (List.range (minLength - 1)).map fun i =>
        trunc.map fun p => log (p.2.getD (i + 1) 0 / p.2.getD i 0)

/-- A `T × N` JavaScript array of arrays as a matrix (rows are always
rectangular where this is applied, so the defaults are never read). -/
def toMat {α : Type} [Field α] (T N : Nat) (rows : List (List α)) :
    Matrix (Fin T) (Fin N) α :=
  Matrix.of fun i j => (rows.getD i []).getD j 0

/-- Columnwise mean, the meaning of `mean(data, 0)` (lines 167 and 179). -/
def colMean {α : Type} [Field α] {T N : Nat} (R : Matrix (Fin T) (Fin N) α)
    (j : Fin N) : α :=
  (∑ i, R i j) / (T : α)

/-- Row-wise subtraction of the column means (line 168). -/
def demean {α : Type} [Field α] {T N : Nat} (R : Matrix (Fin T) (Fin N) α) :
    Matrix (Fin T) (Fin N) α :=
  Matrix.of fun i j => R i j - colMean R j

/-- Model of `calculateCovarianceMatrix` (lines 166-172): demeaned Gram
matrix with every entry divided by `rowCount - 1` (Bessel's correction). -/
def covMatrix {α : Type} [Field α] {T N : Nat} (R : Matrix (Fin T) (Fin N) α) :
    Matrix (Fin N) (Fin N) α :=
  Matrix.of fun j k => ((demean R).transpose * demean R) j k / ((T : α) - 1)

/-- Executable determinant by Laplace expansion along the first row;
proved equal to `Matrix.det` below. -/
def detL {α : Type} [Field α] : (n : Nat) → Matrix (Fin n) (Fin n) α → α
  | 0, _ => 1
  | n + 1, A =>
    ∑ j : Fin (n + 1),
      (-1) ^ (j : Nat) * A 0 j * detL n (A.submatrix Fin.succ j.succAbove)

/-- Executable adjugate via `detL`; proved equal to `Matrix.adjugate` below. -/
def adjugateL {α : Type} [Field α] (n : Nat) (A : Matrix (Fin n) (Fin n) α) :
    Matrix (Fin n) (Fin n) α :=
  Matrix.of fun i j => detL n (A.updateRow j (Pi.single i 1))

/-- Exact-arithmetic meaning of `mathjs.inv` (line 181): fails exactly on a
zero determinant (mathjs raises "determinant is zero"), and otherwise
returns the inverse, here as adjugate over determinant. -/
def matInv {α : Type} [Field α] [DecidableEq α] {n : Nat}
    (A : Matrix (Fin n) (Fin n) α) : Option (Matrix (Fin n) (Fin n) α) :=
  if detL n A = 0 then none else some ((detL n A)⁻¹ • adjugateL n A)

/-- Model of `optimizePortfolio` (lines 174-190): reject empty returns
(line 176); invert the covariance matrix, with failure re-signalled as the
singular-covariance error by the `catch` (lines 186-189); then
`top = covInv · 1`, `bottom = 1ᵀ · top`, and the weights are `top / bottom`.
The number of assets is the length of `mean(returns, 0)`, i.e. the row
width. -/
def optimizePortfolio {α : Type} [Field α] [DecidableEq α]
    (returns : List (List α)) : Except JsError (List α) :=
  if returns.length = 0 then .error .emptyReturns
  else
    let T := returns.length
    let N := returns.headI.length
    let R := toMat T N returns
    match matInv (covMatrix R) with
    | none => .error .singularCovariance
    | some covInv =>
      let top : Fin N → α := fun i => ∑ j, covInv i j
      let bottom : α := ∑ i, top i
      .ok (List.ofFn fun i => top i / bottom)

/-- Model of `formatWeights` (lines 192-194): each requested id is paired
with the weight at its index; an index beyond the weight vector reads
`undefined` (`none`). The string rendering itself is presentation and is
abstracted to this pairing. -/
def formatWeights {α : Type} (coinIds : List String) (weights : List α) :
    List (String × Option α) :=
  coinIds.enum.map fun p => (p.2, weights[p.1]?)

instance exceptDecEq {ε σ : Type} [DecidableEq ε] [DecidableEq σ] :
    DecidableEq (Except ε σ)
  | .error a, .error b => decidable_of_iff (a = b) (by simp)
  | .error _, .ok _ => isFalse (by simp)
  | .ok _, .error _ => isFalse (by simp)
  | .ok a, .ok b => decidable_of_iff (a = b) (by simp)

instance instDecEqFetchResult : DecidableEq (List (String × List ℚ) ×
    List ((String × Nat) × CacheEntry ℚ) × Nat) :=
  instDecidableEqProd

open Matrix

/-! ### Helper lemmas -/

/-- The executable Laplace determinant agrees with `Matrix.det`. -/
theorem detL_eq {α : Type} [Field α] :
    ∀ (n : Nat) (A : Matrix (Fin n) (Fin n) α), detL n A = A.det
  | 0, A => by rw [detL, Matrix.det_fin_zero]
  | n + 1, A => by
    rw [detL, Matrix.det_succ_row_zero]
    exact Finset.sum_congr rfl fun j _ => by rw [detL_eq n]

/-- The executable adjugate agrees with `Matrix.adjugate`. -/
theorem adjugateL_eq {α : Type} [Field α] (n : Nat)
    (A : Matrix (Fin n) (Fin n) α) : adjugateL n A = A.adjugate := by
  ext i j
  rw [adjugateL, Matrix.of_apply, detL_eq, Matrix.adjugate_apply]

/-- When `matInv` succeeds, its input had nonzero determinant and the result
is adjugate over determinant. -/
theorem matInv_eq_some {α : Type} [Field α] [DecidableEq α] {n : Nat}
    {A M : Matrix (Fin n) (Fin n) α} (h : matInv A = some M) :
    A.det ≠ 0 ∧ M = A.det⁻¹ • A.adjugate := by
  by_cases hd : detL n A = 0
  · rw [matInv, if_pos hd] at h
    exact absurd h (by simp)
  · rw [matInv, if_neg hd] at h
    rw [detL_eq] at hd
    refine ⟨hd, ?_⟩
    cases h
    rw [detL_eq, adjugateL_eq]

/-- A matrix times its `matInv`-produced inverse is the identity. -/
theorem mul_det_inv_smul_adjugate {α : Type} [Field α] {n : Nat}
    (C : Matrix (Fin n) (Fin n) α) (h : C.det ≠ 0) :
    C * (C.det⁻¹ • C.adjugate) = 1 := by
  rw [Matrix.mul_smul, Matrix.mul_adjugate, smul_smul, inv_mul_cancel₀ h,
    one_smul]

/-- The covariance matrix as a scalar multiple of the demeaned Gram matrix. -/
theorem covMatrix_eq_smul {α : Type} [Field α] {T N : Nat}
    (R : Matrix (Fin T) (Fin N) α) :
    covMatrix R = ((T : α) - 1)⁻¹ • ((demean R).transpose * demean R) := by
  ext j k
  simp [covMatrix, div_eq_mul_inv, mul_comm]

/-- The quadratic form of the covariance matrix is a scaled sum of squares. -/
theorem quadForm_covMatrix {α : Type} [Field α] {T N : Nat}
    (R : Matrix (Fin T) (Fin N) α) (y : Fin N → α) :
    y ⬝ᵥ (covMatrix R *ᵥ y) =
      ((T : α) - 1)⁻¹ * ((demean R *ᵥ y) ⬝ᵥ (demean R *ᵥ y)) := by
  rw [covMatrix_eq_smul, Matrix.smul_mulVec_assoc, Matrix.dotProduct_smul,
    smul_eq_mul, ← Matrix.mulVec_mulVec, Matrix.dotProduct_mulVec,
    Matrix.vecMul_transpose]

/-- Over an ordered field, a covariance matrix with nonzero determinant has
a strictly positive quadratic form at any vector with nonzero image under
it: this is positive definiteness specialised to what the sum-to-one proof
needs. The key consequence: the total mass of the inverse,
`1ᵀ (covMatrix R)⁻¹ 1`, cannot vanish. -/
theorem bottom_ne_zero {α : Type} [LinearOrderedField α] [DecidableEq α]
    {T N : Nat} (hN : 0 < N) (R : Matrix (Fin T) (Fin N) α)
    (hdet : (covMatrix R).det ≠ 0) :
    ∑ i, ∑ j, ((covMatrix R).det⁻¹ • (covMatrix R).adjugate) i j ≠ 0 := by
  set C := covMatrix R with hC
  set M := C.det⁻¹ • C.adjugate with hM
  have hone : C * M = 1 := mul_det_inv_smul_adjugate C hdet
  -- the all-ones vector and its image under M
  set u : Fin N → α := fun _ => 1 with hu
  set y : Fin N → α := M *ᵥ u with hy
  have hCy : C *ᵥ y = u := by
    rw [hy, Matrix.mulVec_mulVec, hone, Matrix.one_mulVec]
  -- the double sum is the quadratic form of C at y
  have hsum : ∑ i, ∑ j, M i j = y ⬝ᵥ (C *ᵥ y) := by
    rw [hCy]
    simp [Matrix.dotProduct, hy, Matrix.mulVec, hu, mul_comm]
  rw [hsum]
  -- T = 1 (or T = 0 with no rows at all) makes C literally zero,
  -- contradicting the nonzero determinant
  have hT : ((T : α) - 1)⁻¹ ≠ 0 ∨ C = 0 := by
    by_cases h : ((T : α) - 1)⁻¹ = 0
    · right
      rw [hC]
      ext j k
      simp [covMatrix, div_eq_mul_inv, h]
    · left; exact h
  rcases hT with hT | hT
  · -- main case: a vanishing quadratic form would force `C *ᵥ y = 0`,
    -- hence `u = 0`, impossible since `u` is all ones
    intro hzero
    rw [quadForm_covMatrix, mul_eq_zero] at hzero
    rcases hzero with hzero | hzero
    · exact hT hzero
    · have hAy : demean R *ᵥ y = 0 := dotProduct_self_eq_zero.mp hzero
      have : C *ᵥ y = 0 := by
        rw [hC, covMatrix_eq_smul, Matrix.smul_mulVec_assoc,
          ← Matrix.mulVec_mulVec, hAy, Matrix.mulVec_zero, smul_zero]
      rw [hCy] at this
      have h1 : u ⟨0, hN⟩ = 0 := by rw [this]; rfl
      rw [hu] at h1
      exact one_ne_zero h1
  · exact absurd (by rw [hT]; exact Matrix.det_zero ⟨⟨0, hN⟩⟩) hdet

/-- Closed form of `computeReturns` on a mapping that passes both guards. -/
theorem computeReturns_ok {α : Type} [Field α] (log : α → α)
    (prices : List (String × List α)) (h1 : prices ≠ [])
    (h2 : 2 ≤ minSeriesLength prices) :
    computeReturns log prices =
      .ok ((List.range (minSeriesLength prices - 1)).map fun i =>
        prices.map fun p =>
          log ((p.2.drop (p.2.length - minSeriesLength prices)).getD (i + 1) 0 /
               (p.2.drop (p.2.length - minSeriesLength prices)).getD i 0)) := by
  rw [computeReturns, if_neg (by simpa using h1), if_neg (by omega)]
  simp [List.map_map, Function.comp]

/-- Row count and row shape of a successful `computeReturns`. -/
theorem computeReturns_shape {α : Type} [Field α] (log : α → α)
    (prices : List (String × List α)) (h1 : prices ≠ [])
    (h2 : 2 ≤ minSeriesLength prices) :
    ∃ rows, computeReturns log prices = .ok rows ∧
      rows.length = minSeriesLength prices - 1 ∧
      rows.headI.length = prices.length ∧ rows ≠ [] := by
  refine ⟨_, computeReturns_ok log prices h1 h2, ?_, ?_, ?_⟩
  · simp
  · obtain ⟨k, hk⟩ : ∃ k, minSeriesLength prices - 1 = k + 1 :=
      ⟨minSeriesLength prices - 2, by omega⟩
    rw [hk, List.range_succ_eq_map]
    simp
  · obtain ⟨k, hk⟩ : ∃ k, minSeriesLength prices - 1 = k + 1 :=
      ⟨minSeriesLength prices - 2, by omega⟩
    rw [hk, List.range_succ_eq_map]
    simp

/-- Lower bound propagates through the running-minimum fold. -/
theorem le_foldl_min {α : Type} {k : Nat} :
    ∀ (l : List (String × List α)) (init : Nat), k ≤ init →
      (∀ q ∈ l, k ≤ q.2.length) →
      k ≤ l.foldl (fun acc q => Nat.min acc q.2.length) init
  | [], _, h, _ => h
  | q :: rest, init, h, hall =>
    le_foldl_min rest (Nat.min init q.2.length)
      (Nat.le_min.mpr ⟨h, hall q (by simp)⟩)
      fun r hr => hall r (by simp [hr])

/-- If every series has length at least `k`, so does the common minimum. -/
theorem le_minSeriesLength {α : Type} {k : Nat} :
    ∀ (prices : List (String × List α)), prices ≠ [] →
      (∀ p ∈ prices, k ≤ p.2.length) → k ≤ minSeriesLength prices
  | [], h, _ => absurd rfl h
  | p :: rest, _, hall =>
    le_foldl_min rest p.2.length (hall p (by simp))
      fun r hr => hall r (by simp [hr])

/-- Closed form of `optimizePortfolio` when the covariance inversion
succeeds. -/
theorem optimizePortfolio_ok {α : Type} [Field α] [DecidableEq α]
    (returns : List (List α)) (h1 : returns ≠ [])
    (M : Matrix (Fin returns.headI.length) (Fin returns.headI.length) α)
    (hM : matInv (covMatrix (toMat returns.length returns.headI.length
      returns)) = some M) :
    optimizePortfolio returns =
      .ok (List.ofFn fun i : Fin returns.headI.length =>
        (∑ j, M i j) / ∑ i', ∑ j, M i' j) := by
  rw [optimizePortfolio, if_neg (by simpa using h1)]
  simp only [hM]

/-- One step of the retry loop: a successful try returns the series and the
waited time. -/
theorem fetchLoop_ok_step {α : Type} (u : Nat → AxiosResult α)
    (assetId : String) (days fuel retries waited : Nat) {series : List α}
    (h : tryBody (u retries) assetId days = .ok series) :
    fetchLoop u assetId days (fuel + 1) retries waited = .ok (series, waited) := by
  rw [fetchLoop, h]

/-- One step of the retry loop: a 429 response waits `2 ^ (retries + 1)`
seconds and retries. -/
theorem fetchLoop_429_step {α : Type} (u : Nat → AxiosResult α)
    (assetId : String) (days fuel retries waited : Nat) {msg : Option String}
    (h : tryBody (u retries) assetId days = .error (.httpErr 429 msg)) :
    fetchLoop u assetId days (fuel + 1) retries waited =
      fetchLoop u assetId days fuel (retries + 1)
        (waited + 2 ^ (retries + 1) * 1000) := by
  rw [fetchLoop, h]
  exact if_pos rfl

/-- One step of the retry loop: a non-429 HTTP failure is not retried. -/
theorem fetchLoop_err_step {α : Type} (u : Nat → AxiosResult α)
    (assetId : String) (days fuel retries waited : Nat) {status : Nat}
    {msg : Option String}
    (h : tryBody (u retries) assetId days = .error (.httpErr status msg))
    (hs : status ≠ 429) :
    fetchLoop u assetId days (fuel + 1) retries waited =
      .error (.notFoundOrUpstream assetId msg) := by
  rw [fetchLoop, h]
  exact if_neg hs

/-- One step of the retry loop: the insufficient-data exception thrown at
line 110 has no `.response`, so the catch rethrows the generic error. -/
theorem fetchLoop_insufficient_step {α : Type} (u : Nat → AxiosResult α)
    (assetId : String) (days fuel retries waited : Nat) {a : String} {d : Nat}
    (h : tryBody (u retries) assetId days = .error (.insufficientData a d)) :
    fetchLoop u assetId days (fuel + 1) retries waited =
      .error (.notFoundOrUpstream assetId none) := by
  rw [fetchLoop, h]

/-- Looking up a key just inserted finds the inserted value. -/
theorem lookupA_insertA_self {κ β : Type} [DecidableEq κ] (k : κ) (v : β) :
    ∀ l : List (κ × β), lookupA k (insertA k v l) = some v
  | [] => by rw [insertA, lookupA, if_pos rfl]
  | (k', v') :: rest => by
    rw [insertA]
    by_cases h : k' = k
    · rw [if_pos h, lookupA, if_pos rfl]
    · rw [if_neg h, lookupA, if_neg h, lookupA_insertA_self k v rest]

/-- Inserting an absent key appends it. -/
theorem insertA_of_not_mem {κ β : Type} [DecidableEq κ] (k : κ) (v : β) :
    ∀ l : List (κ × β), k ∉ l.map Prod.fst → insertA k v l = l ++ [(k, v)]
  | [], _ => rfl
  | (k', v') :: rest, h => by
    rw [insertA, if_neg (fun he => h (by simp [he])),
      insertA_of_not_mem k v rest (fun hm => h (by simp [hm])),
      List.cons_append]

/-- Key list of an insertion: unchanged for a present key, extended by the
key otherwise. -/
theorem keys_insertA {κ β : Type} [DecidableEq κ] (k : κ) (v : β) :
    ∀ l : List (κ × β), (insertA k v l).map Prod.fst =
      if k ∈ l.map Prod.fst then l.map Prod.fst else l.map Prod.fst ++ [k]
  | [] => by rw [insertA]; simp
  | (k', v') :: rest => by
    rw [insertA]
    by_cases h : k' = k
    · subst h
      rw [if_pos (by simp)]
      simp
    · rw [if_neg h, List.map_cons, keys_insertA k v rest, List.map_cons]
      by_cases hm : k ∈ rest.map Prod.fst
      · rw [if_pos hm, if_pos (by simp [hm])]
      · rw [if_neg hm, if_neg (by simp [hm, Ne.symm h]), List.cons_append]

/-- Bind of a successful `Except` computation. -/
theorem except_bind_ok {ε σ τ : Type} (a : σ) (f : σ → Except ε τ) :
    (Except.ok a >>= f : Except ε τ) = f a := rfl

/-- Bind of a failed `Except` computation. -/
theorem except_bind_error {ε σ τ : Type} (e : ε) (f : σ → Except ε τ) :
    (Except.error e >>= f : Except ε τ) = .error e := rfl

/-- Inversion of one successful `fetchPrices` step: whatever the cache said,
the loop continued with some series inserted for the head asset. -/
theorem fetchPrices_cons_inv {α : Type} [DecidableEq α]
    {u : String → Nat → Nat → AxiosResult α} {days : Nat} {assetId : String}
    {rest : List String} {acc prices : List (String × List α)}
    {cache cache' : List ((String × Nat) × CacheEntry α)} {now now' : Nat}
    (h : fetchPrices u days (assetId :: rest) acc cache now =
      .ok (prices, cache', now')) :
    ∃ series : List α, ∃ cache2 now2,
      fetchPrices u days rest (insertA assetId series acc) cache2 now2 =
        .ok (prices, cache', now') := by
  simp only [fetchPrices] at h
  rcases hl : lookupA (assetId, days) cache with _ | entry <;>
    simp only [hl] at h
  · rcases hf : fetchFresh u assetId days cache now with e |
      ⟨series, cache2, now2⟩ <;> simp only [hf] at h
    · exact absurd h (by simp)
    · exact ⟨series, cache2, now2, h⟩
  · by_cases hc : now - entry.timestamp < CACHE_TTL
    · rw [if_pos hc] at h
      exact ⟨entry.data, cache, now, h⟩
    · rw [if_neg hc] at h
      rcases hf : fetchFresh u assetId days cache now with e |
        ⟨series, cache2, now2⟩ <;> simp only [hf] at h
      · exact absurd h (by simp)
      · exact ⟨series, cache2, now2, h⟩

/-- Under pairwise-distinct requested ids, the keys of the mapping built by
`fetchPrices` are the accumulator's keys followed by the requested ids, in
order. -/
theorem fetchPrices_keys_nodup {α : Type} [DecidableEq α]
    (u : String → Nat → Nat → AxiosResult α) (days : Nat) :
    ∀ (coinIds : List String) (acc prices : List (String × List α))
      (cache cache' : List ((String × Nat) × CacheEntry α)) (now now' : Nat),
      coinIds.Nodup → (∀ x ∈ coinIds, x ∉ acc.map Prod.fst) →
      fetchPrices u days coinIds acc cache now = .ok (prices, cache', now') →
      prices.map Prod.fst = acc.map Prod.fst ++ coinIds
  | [], acc, prices, cache, cache', now, now', _, _, h => by
    simp only [fetchPrices, Except.ok.injEq, Prod.mk.injEq] at h
    rcases h with ⟨rfl, -, -⟩
    simp
  | assetId :: rest, acc, prices, cache, cache', now, now', hnd, hdisj, h => by
    obtain ⟨series, cache2, now2, h2⟩ := fetchPrices_cons_inv h
    have hacc := insertA_of_not_mem assetId series acc (hdisj assetId (by simp))
    have hrec := fetchPrices_keys_nodup u days rest
      (insertA assetId series acc) prices cache2 cache' now2 now'
      (List.nodup_cons.mp hnd).2
      (fun x hx => by
        rw [hacc, List.map_append, List.mem_append]
        rintro (hin | hin)
        · exact hdisj x (List.mem_cons_of_mem assetId hx) hin
        · simp only [List.map_cons, List.map_nil, List.mem_singleton] at hin
          exact (List.nodup_cons.mp hnd).1 (hin ▸ hx))
      h2
    rw [hrec, hacc]
    simp

/-- The mapping built by `fetchPrices` has pairwise-distinct keys, and its
keys are exactly the accumulator's keys together with the requested ids. -/
theorem fetchPrices_keys_complete {α : Type} [DecidableEq α]
    (u : String → Nat → Nat → AxiosResult α) (days : Nat) :
    ∀ (coinIds : List String) (acc prices : List (String × List α))
      (cache cache' : List ((String × Nat) × CacheEntry α)) (now now' : Nat),
      (acc.map Prod.fst).Nodup →
      fetchPrices u days coinIds acc cache now = .ok (prices, cache', now') →
      (prices.map Prod.fst).Nodup ∧
      ∀ x, x ∈ prices.map Prod.fst ↔ x ∈ acc.map Prod.fst ∨ x ∈ coinIds
  | [], acc, prices, cache, cache', now, now', hnd, h => by
    simp only [fetchPrices, Except.ok.injEq, Prod.mk.injEq] at h
    rcases h with ⟨rfl, -, -⟩
    exact ⟨hnd, fun x => by simp⟩
  | assetId :: rest, acc, prices, cache, cache', now, now', hnd, h => by
    obtain ⟨series, cache2, now2, h2⟩ := fetchPrices_cons_inv h
    have hkeys := keys_insertA assetId series acc
    have hnd2 : ((insertA assetId series acc).map Prod.fst).Nodup := by
      rw [hkeys]
      by_cases hm : assetId ∈ acc.map Prod.fst
      · rw [if_pos hm]; exact hnd
      · rw [if_neg hm]; simp [List.nodup_append, hnd, hm]
    have hmem2 : ∀ x, x ∈ (insertA assetId series acc).map Prod.fst ↔
        x ∈ acc.map Prod.fst ∨ x = assetId := by
      intro x
      rw [hkeys]
      by_cases hm : assetId ∈ acc.map Prod.fst
      · rw [if_pos hm]
        exact ⟨Or.inl, fun hx => hx.elim (fun h => h) (fun h => h ▸ hm)⟩
      · rw [if_neg hm]; simp
    obtain ⟨ih1, ih2⟩ := fetchPrices_keys_complete u days rest
      (insertA assetId series acc) prices cache2 cache' now2 now' hnd2 h2
    refine ⟨ih1, fun x => ?_⟩
    rw [ih2 x, hmem2 x, List.mem_cons]
    tauto

/-! ### Claim theorems -/

/-- C1: for every non-empty set of asset price histories, each of length at
least 2, whose covariance matrix is invertible (nonzero determinant, the
exact-arithmetic rendering of floating-point invertibility), the weight
vector returned by `optimizePortfolio (computeReturns prices)` sums to
exactly 1 (the exact-arithmetic rendering of "1.0 within floating-point
tolerance"), and entries may indeed be negative, witnessed by a concrete
two-asset history whose first weight is `-24/31`: no non-negativity
constraint is enforced. -/
theorem claim1_weights_sum_one {α : Type} [LinearOrderedField α]
    [DecidableEq α] (log : α → α) (prices : List (String × List α))
    (h1 : prices ≠ [])
    (h2 : ∀ p ∈ prices, 2 ≤ p.2.length)
    (h3 : ∀ rows, computeReturns log prices = .ok rows →
      detL rows.headI.length
        (covMatrix (toMat rows.length rows.headI.length rows)) ≠ 0) :
    (∃ w, (computeReturns log prices >>= optimizePortfolio) = .ok w ∧
      w.sum = 1) ∧
    (∃ (prices₂ : List (String × List ℚ)) (w₂ : List ℚ),
      (computeReturns id prices₂ >>= optimizePortfolio) = .ok w₂ ∧
      ∃ x ∈ w₂, x < 0) := by
  constructor
  · obtain ⟨rows, hok, hlen, hhead, hne⟩ :=
      computeReturns_shape log prices h1 (le_minSeriesLength prices h1 h2)
    have hdet := h3 rows hok
    have hN : 0 < rows.headI.length := by
      rw [hhead]; exact List.length_pos.mpr h1
    have hMinv : matInv (covMatrix (toMat rows.length rows.headI.length
        rows)) = some ((detL rows.headI.length (covMatrix (toMat rows.length
          rows.headI.length rows)))⁻¹ • adjugateL rows.headI.length
            (covMatrix (toMat rows.length rows.headI.length rows))) := by
      rw [matInv, if_neg hdet]
    have hB : ∑ i, ∑ j, ((detL rows.headI.length (covMatrix (toMat
        rows.length rows.headI.length rows)))⁻¹ • adjugateL
          rows.headI.length (covMatrix (toMat rows.length rows.headI.length
            rows))) i j ≠ 0 := by
      rw [detL_eq, adjugateL_eq]
      exact bottom_ne_zero hN _ (by rw [← detL_eq]; exact hdet)
    refine ⟨_, by rw [hok]; exact optimizePortfolio_ok rows hne _ hMinv, ?_⟩
    rw [List.sum_ofFn, ← Finset.sum_div, div_self hB]
  · refine ⟨[("a", [1, 1, 3, 6]), ("b", [1, 1/2, 7/10, 77/100])],
      [-24/31, 55/31], by decide, by decide⟩

/-- C2: for every non-empty return matrix whose sample covariance matrix is
singular (zero determinant, e.g. one built from two identical price
series — see the witness), `optimizePortfolio` fails with the
singular-covariance error: the inversion failure inside the `try` block is
re-signalled by the `catch` as this typed error, and no weight vector is
returned at all (in particular none containing `NaN` or `Infinity`, which
do not exist in exact arithmetic; the code path that would produce them is
never reached since `mathjs.inv` raises on a zero determinant). -/
theorem claim2_singular_covariance {α : Type} [Field α] [DecidableEq α]
    (returns : List (List α)) (h1 : returns ≠ [])
    (h2 : detL returns.headI.length
      (covMatrix (toMat returns.length returns.headI.length returns)) = 0) :
    optimizePortfolio returns = .error .singularCovariance := by
  rw [optimizePortfolio, if_neg (by simpa using h1)]
  have hnone : matInv (covMatrix (toMat returns.length returns.headI.length
      returns)) = none := by
    rw [matInv, if_pos h2]
  simp only [hnone]

/-- Witness for C2: two identical price series produce a singular
covariance matrix and the typed singular-covariance error. -/
theorem claim2_witness :
    computeReturns (id : ℚ → ℚ) [("a", [1, 2, 8]), ("b", [1, 2, 8])] =
      .ok [[2, 2], [4, 4]] ∧
    optimizePortfolio [[(2 : ℚ), 2], [4, 4]] = .error .singularCovariance :=
  ⟨by decide, claim2_singular_covariance [[2, 2], [4, 4]] (by decide)
    (by decide)⟩

/-- C3: for every non-empty price mapping with minimum series length at
least 2, `computeReturns` keeps only the most recent `minLength` points of
every series (each series is truncated by dropping its
`length - minLength` oldest samples) and produces exactly
`minLength - 1` rows, row `i` holding the log-ratio of consecutive kept
samples of each series. -/
theorem claim3_truncation {α : Type} [Field α] (log : α → α)
    (prices : List (String × List α)) (h1 : prices ≠ [])
    (h2 : 2 ≤ minSeriesLength prices) :
    ∃ rows, computeReturns log prices = .ok rows ∧
      rows.length = minSeriesLength prices - 1 ∧
      ∀ i : Nat, i < minSeriesLength prices - 1 →
        rows[i]? = some (prices.map fun p =>
          log ((p.2.drop (p.2.length - minSeriesLength prices)).getD (i + 1)
              0 /
            (p.2.drop (p.2.length - minSeriesLength prices)).getD i 0)) := by
  refine ⟨_, computeReturns_ok log prices h1 h2, by simp, ?_⟩
  intro i hi
  rw [List.getElem?_map, List.getElem?_range hi, Option.map_some']

/-- Witness for C3: series of lengths 10 and 7 yield exactly 6 rows. -/
theorem claim3_witness :
    ∃ rows, computeReturns (id : ℚ → ℚ)
      [("a", [1, 2, 3, 4, 5, 6, 7, 8, 9, 10]), ("b", [1, 2, 3, 4, 5, 6, 7])]
        = .ok rows ∧ rows.length = 6 := by
  obtain ⟨rows, hok, hlen, _⟩ := claim3_truncation (id : ℚ → ℚ)
    [("a", [1, 2, 3, 4, 5, 6, 7, 8, 9, 10]), ("b", [1, 2, 3, 4, 5, 6, 7])]
    (by decide) (by decide)
  exact ⟨rows, hok, by rw [hlen]; decide⟩

/-- C5 as stated is false: on the empty mapping `computeReturns` does not
fail at all — line 139 returns an empty matrix, and the failure the spec
attributes to an `EmptyInputError` only arises later, inside
`optimizePortfolio`. -/
theorem claim5_counterexample :
    computeReturns (id : ℚ → ℚ) [] = .ok [] := by decide

/-- C5 (amended): `computeReturns` returns the empty matrix (not an
`EmptyInputError`) when the input mapping is empty; it fails with
`InsufficientHistoryError` exactly when the mapping is non-empty and the
minimum series length is below 2; in all other cases it returns a return
matrix. -/
theorem claim5_computeReturns_cases {α : Type} [Field α] (log : α → α)
    (prices : List (String × List α)) :
    (prices = [] → computeReturns log prices = .ok []) ∧
    (computeReturns log prices = .error .insufficientHistory ↔
      prices ≠ [] ∧ minSeriesLength prices < 2) ∧
    (prices ≠ [] → 2 ≤ minSeriesLength prices →
      ∃ rows, computeReturns log prices = .ok rows) := by
  by_cases h1 : prices = []
  · subst h1
    refine ⟨fun _ => by rw [computeReturns]; rfl, ?_, fun h _ => absurd rfl h⟩
    constructor
    · intro h
      rw [computeReturns] at h
      exact absurd h (by simp)
    · rintro ⟨h, -⟩
      exact absurd rfl h
  · by_cases h2 : minSeriesLength prices < 2
    · have herr : computeReturns log prices = .error .insufficientHistory := by
        rw [computeReturns, if_neg (by simpa using h1), if_pos h2]
      exact ⟨fun h => absurd h h1, by simp [herr, h1, h2],
        fun _ hge => by omega⟩
    · have hok := computeReturns_ok log prices h1 (by omega)
      refine ⟨fun h => absurd h h1, ?_, fun _ _ => ⟨_, hok⟩⟩
      rw [hok]
      simp [h2]

/-- Witness for C5 (amended) at concrete inputs: the empty mapping, a
too-short mapping, and a well-formed mapping. -/
theorem claim5_witness :
    computeReturns (id : ℚ → ℚ) [] = .ok [] ∧
    computeReturns (id : ℚ → ℚ) [("a", [5])] =
      .error .insufficientHistory ∧
    ∃ rows, computeReturns (id : ℚ → ℚ) [("a", [1, 2])] = .ok rows :=
  ⟨(claim5_computeReturns_cases (id : ℚ → ℚ) []).1 rfl,
   (claim5_computeReturns_cases (id : ℚ → ℚ) [("a", [5])]).2.1.mpr
     ⟨by decide, by decide⟩,
   (claim5_computeReturns_cases (id : ℚ → ℚ) [("a", [1, 2])]).2.2
     (by decide) (by decide)⟩

/-- C6: a cache entry for `(assetId, windowDays)` strictly younger than the
5-minute TTL is returned as is — a pure read whose outcome is stated for
every upstream, hence independent of upstream behaviour, with cache and
clock unchanged; when the entry is absent or at least TTL old, the result
is the retry loop's outcome and a successful fresh series is stored under
the key, overwriting any prior entry (the final lookup finds the fresh
entry). -/
theorem claim6_cache_behaviour {α : Type} [DecidableEq α] (assetId : String)
    (days now : Nat) (cache : List ((String × Nat) × CacheEntry α)) :
    (∀ entry : CacheEntry α, lookupA (assetId, days) cache = some entry →
      now - entry.timestamp < CACHE_TTL →
      ∀ (u : String → Nat → Nat → AxiosResult α)
        (prices : List (String × List α)),
        fetchPrices u days [assetId] prices cache now =
          .ok (insertA assetId entry.data prices, cache, now)) ∧
    (∀ (u : String → Nat → Nat → AxiosResult α) (series : List α)
      (waited : Nat),
      (lookupA (assetId, days) cache = none ∨
        ∃ entry, lookupA (assetId, days) cache = some entry ∧
          CACHE_TTL ≤ now - entry.timestamp) →
      fetchLoop (u assetId days) assetId days maxRetries 0 0 =
        .ok (series, waited) →
      fetchPrices u days [assetId] [] cache now =
        .ok ([(assetId, series)],
          insertA (assetId, days) ⟨series, now + waited⟩ cache,
          now + waited) ∧
      lookupA (assetId, days)
          (insertA (assetId, days) ⟨series, now + waited⟩ cache) =
        some ⟨series, now + waited⟩) := by
  constructor
  · intro entry hlook hfresh u prices
    simp only [fetchPrices, hlook]
    rw [if_pos hfresh]
  · intro u series waited hmiss hloop
    have hff : fetchFresh u assetId days cache now =
        .ok (series, insertA (assetId, days) ⟨series, now + waited⟩ cache,
          now + waited) := by
      rw [fetchFresh, hloop]
    refine ⟨?_, lookupA_insertA_self _ _ _⟩
    rcases hmiss with hnone | ⟨entry, hsome, hstale⟩
    · simp only [fetchPrices, hnone, hff, insertA]
    · simp only [fetchPrices, hsome]
      rw [if_neg (not_lt.mpr hstale)]
      simp only [hff, fetchPrices, insertA]

/-- Witness for C6: a fresh hit answers from the cache for an upstream that
always fails, and a stale entry is refetched and overwritten. -/
theorem claim6_witness :
    fetchPrices (fun _ _ _ => (.errNoResp : AxiosResult ℚ)) 30 ["bitcoin"]
      [] [(("bitcoin", 30), ⟨[1, 2], 100⟩)] 200 =
      .ok ([("bitcoin", [1, 2])], [(("bitcoin", 30), ⟨[1, 2], 100⟩)], 200) ∧
    fetchPrices (fun _ _ _ => (.ok (some [((0 : ℚ), 7), ((1 : ℚ), 9)]) :
        AxiosResult ℚ)) 30 ["bitcoin"]
      [] [(("bitcoin", 30), ⟨[1, 2], 100⟩)] (100 + CACHE_TTL) =
      .ok ([("bitcoin", [7, 9])],
        [(("bitcoin", 30), ⟨[7, 9], 100 + CACHE_TTL⟩)], 100 + CACHE_TTL) :=
  ⟨(claim6_cache_behaviour "bitcoin" 30 200
      [(("bitcoin", 30), ⟨[1, 2], 100⟩)]).1 ⟨[1, 2], 100⟩ (by decide)
      (by decide) _ [],
   ((claim6_cache_behaviour "bitcoin" 30 (100 + CACHE_TTL)
      [(("bitcoin", 30), ⟨[1, 2], 100⟩)]).2 _ [7, 9] 0
      (Or.inr ⟨⟨[1, 2], 100⟩, by decide, by decide⟩) (by decide)).1⟩

/-- C7: a rate-limited upstream on attempts 1 and 2 that succeeds on
attempt 3 yields the same series as an immediately succeeding upstream,
after 2000 ms plus 4000 ms (6000 ms total) of backoff, while the immediate
success waits 0 ms; any non-429 failure on the first attempt fails at once
with the wrapped upstream message regardless of later attempts; three
rate-limited attempts exhaust the fixed maximum of `maxRetries = 3` (within
the spec's "3-4") and fail with the retry-exhausted error. -/
theorem claim7_retry_refinement {α : Type} (assetId : String) (days : Nat)
    (u v : Nat → AxiosResult α) (pairs : List (α × α)) (m1 m2 : Option String)
    (hu0 : u 0 = .errResp 429 m1) (hu1 : u 1 = .errResp 429 m2)
    (hu2 : u 2 = .ok (some pairs)) (hv0 : v 0 = .ok (some pairs))
    (hlen : 2 ≤ pairs.length) :
    (fetchLoop u assetId days maxRetries 0 0 =
        .ok (pairs.map Prod.snd, 6000) ∧
      fetchLoop v assetId days maxRetries 0 0 =
        .ok (pairs.map Prod.snd, 0)) ∧
    (∀ (w : Nat → AxiosResult α) (status : Nat) (msg : Option String),
      w 0 = .errResp status msg → status ≠ 429 →
      fetchLoop w assetId days maxRetries 0 0 =
        .error (.notFoundOrUpstream assetId msg)) ∧
    (∀ (w : Nat → AxiosResult α) (msgs : Nat → Option String),
      (∀ k, k < maxRetries → w k = .errResp 429 (msgs k)) →
      fetchLoop w assetId days maxRetries 0 0 =
        .error (.retryExhausted assetId maxRetries)) := by
  have tok : tryBody (AxiosResult.ok (some pairs)) assetId days =
      .ok (pairs.map Prod.snd) := by
    rw [tryBody, if_neg (by omega)]
  refine ⟨⟨?_, ?_⟩, ?_, ?_⟩
  · have t0 : tryBody (u 0) assetId days = .error (.httpErr 429 m1) := by
      rw [hu0]; rfl
    have t1 : tryBody (u 1) assetId days = .error (.httpErr 429 m2) := by
      rw [hu1]; rfl
    have t2 : tryBody (u 2) assetId days = .ok (pairs.map Prod.snd) := by
      rw [hu2]; exact tok
    show fetchLoop u assetId days (2 + 1) 0 0 = _
    rw [fetchLoop_429_step u assetId days 2 0 0 t0]
    norm_num
    have s2 := fetchLoop_429_step u assetId days 1 1 2000 t1
    norm_num at s2
    rw [s2]
    have s3 := fetchLoop_ok_step u assetId days 0 2 6000 t2
    norm_num at s3
    exact s3
  · have t0 : tryBody (v 0) assetId days = .ok (pairs.map Prod.snd) := by
      rw [hv0]; exact tok
    show fetchLoop v assetId days (2 + 1) 0 0 = _
    exact fetchLoop_ok_step v assetId days 2 0 0 t0
  · intro w status msg hw hs
    have t0 : tryBody (w 0) assetId days = .error (.httpErr status msg) := by
      rw [hw]; rfl
    show fetchLoop w assetId days (2 + 1) 0 0 = _
    exact fetchLoop_err_step w assetId days 2 0 0 t0 hs
  · intro w msgs hw
    have t0 : tryBody (w 0) assetId days = .error (.httpErr 429 (msgs 0)) := by
      rw [hw 0 (by decide)]; rfl
    have t1 : tryBody (w 1) assetId days = .error (.httpErr 429 (msgs 1)) := by
      rw [hw 1 (by decide)]; rfl
    have t2 : tryBody (w 2) assetId days = .error (.httpErr 429 (msgs 2)) := by
      rw [hw 2 (by decide)]; rfl
    show fetchLoop w assetId days (2 + 1) 0 0 = _
    rw [fetchLoop_429_step w assetId days 2 0 0 t0]
    norm_num
    have s2 := fetchLoop_429_step w assetId days 1 1 2000 t1
    norm_num at s2
    rw [s2]
    have s3 := fetchLoop_429_step w assetId days 0 2 6000 t2
    norm_num at s3
    rw [s3, fetchLoop]

/-- Witness for C7 at a concrete upstream pair over rational prices. -/
theorem claim7_witness :
    fetchLoop (fun k => if k = 0 then .errResp 429 none
        else if k = 1 then .errResp 429 (some "slow")
        else .ok (some [((0 : ℚ), 5), ((1 : ℚ), 10)]))
      "bitcoin" 30 maxRetries 0 0 = .ok ([5, 10], 6000) ∧
    fetchLoop (fun _ => (.ok (some [((0 : ℚ), 5), ((1 : ℚ), 10)]) :
        AxiosResult ℚ)) "bitcoin" 30 maxRetries 0 0 = .ok ([5, 10], 0) :=
  ⟨(claim7_retry_refinement "bitcoin" 30
      (fun k => if k = 0 then .errResp 429 none
        else if k = 1 then .errResp 429 (some "slow")
        else .ok (some [((0 : ℚ), 5), ((1 : ℚ), 10)]))
      (fun _ => .ok (some [((0 : ℚ), 5), ((1 : ℚ), 10)]))
      [(0, 5), (1, 10)] none (some "slow") rfl rfl rfl rfl
      (by decide)).1.1,
   (claim7_retry_refinement "bitcoin" 30
      (fun k => if k = 0 then .errResp 429 none
        else if k = 1 then .errResp 429 (some "slow")
        else .ok (some [((0 : ℚ), 5), ((1 : ℚ), 10)]))
      (fun _ => .ok (some [((0 : ℚ), 5), ((1 : ℚ), 10)]))
      [(0, 5), (1, 10)] none (some "slow") rfl rfl rfl rfl
      (by decide)).1.2⟩

/-- C8 is right about the intent and wrong about the code: on an upstream
success with fewer than 2 data points, line 110 does construct the
insufficient-data error naming the asset and window, but it is thrown
inside the `try`, and the `catch` at line 117 — finding no `.response` on
it — replaces it at line 124 with the generic could-not-find-coin error.
The caller therefore observes `notFoundOrUpstream`, not
`insufficientData`. -/
theorem claim8_insufficient_masked :
    tryBody (.ok (some [((0 : ℚ), 100)])) "bitcoin" 30 =
      .error (.insufficientData "bitcoin" 30) ∧
    fetchLoop (fun _ => (.ok (some [((0 : ℚ), 100)]) : AxiosResult ℚ))
      "bitcoin" 30 maxRetries 0 0 =
      .error (.notFoundOrUpstream "bitcoin" none) :=
  ⟨by decide, by decide⟩

/-- C9: a ticker that case-normalizes to the id of some catalog asset
resolves to that id — the id lookup takes precedence — even when other
assets share that string as their symbol; the symbol lookup is consulted
only when no id matches. -/
theorem claim9_id_precedence (catalog : List Coin) (ticker : String)
    (h : ∃ c ∈ catalog, c.id = ticker.toLower) :
    resolveTicker catalog ticker = some ticker.toLower ∧
    ∀ t : String, (∀ c ∈ catalog, c.id ≠ t.toLower) →
      resolveTicker catalog t =
        (catalog.find? fun c => c.symbol = t.toLower).map Coin.id := by
  constructor
  · obtain ⟨c, hc, hid⟩ := h
    have hs : (catalog.find? fun c => c.id = ticker.toLower).isSome :=
      List.find?_isSome.mpr ⟨c, hc, by simpa using hid⟩
    obtain ⟨c', hc'⟩ := Option.isSome_iff_exists.mp hs
    have hid' : c'.id = ticker.toLower := by
      simpa using List.find?_some hc'
    rw [resolveTicker, hc']
    exact congrArg some hid'
  · intro t ht
    have hn : (catalog.find? fun c => c.id = t.toLower) = none :=
      List.find?_eq_none.mpr fun c hcmem => by simpa using ht c hcmem
    rw [resolveTicker, hn]
    rcases hsym : catalog.find? fun c => c.symbol = t.toLower with _ | c
    · rw [hsym]; rfl
    · rw [hsym]; rfl

/-- Witness for C9: the ticker BTC resolves to the asset whose id is its
lowercase form, although the first catalog entry carries that string as a
symbol. -/
theorem claim9_witness :
    resolveTicker [⟨"wrapped-x", "BTC".toLower⟩, ⟨"BTC".toLower, "b"⟩]
      "BTC" = some "BTC".toLower :=
  (claim9_id_precedence _ "BTC"
    ⟨⟨"BTC".toLower, "b"⟩, by simp, rfl⟩).1

/-- Witness for C1 at a concrete two-asset history with invertible
covariance. -/
theorem claim1_witness :
    ∃ w : List ℚ,
      (computeReturns id [("a", [1, 1, 3, 6]),
        ("b", [1, 1/2, 7/10, 77/100])] >>= optimizePortfolio) = .ok w ∧
      w.sum = 1 :=
  (claim1_weights_sum_one id
    [("a", [1, 1, 3, 6]), ("b", [1, 1/2, 7/10, 77/100])]
    (by decide) (by decide)
    (fun rows h => by
      have e : computeReturns id [("a", [(1 : ℚ), 1, 3, 6]),
          ("b", [1, 1/2, 7/10, 77/100])] =
          .ok [[1, 1/2], [3, 7/5], [2, 11/10]] := by decide
      rw [e] at h
      injection h with h'
      subst h'
      decide)).1

/-- C4 as stated is false: a request with duplicate resolved ids does not
produce one column per requested ticker. Concretely, requesting
`["bitcoin", "bitcoin"]` yields a mapping with a single entry, so the
column list (the mapping's keys) differs from the resolved asset-id list
and position 1 of the weight vector does not exist for the second
ticker. -/
theorem claim4_counterexample :
    ∃ prices : List (String × List ℚ),
      fetchPrices (fun _ _ _ => (.errNoResp : AxiosResult ℚ)) 30
        ["bitcoin", "bitcoin"] [] [(("bitcoin", 30), ⟨[1, 2], 0⟩)] 0 =
        .ok (prices, [(("bitcoin", 30), ⟨[1, 2], 0⟩)], 0) ∧
      prices.map Prod.fst ≠ ["bitcoin", "bitcoin"] :=
  ⟨[("bitcoin", [1, 2])], by decide, by decide⟩

/-- C4 (amended): for every request whose resolved asset ids are pairwise
distinct, the key order of the mapping built by `fetchPrices` equals the
resolved asset-id order, and every row of the matrix produced by
`computeReturns` lists one entry per mapping entry in exactly that order —
so position `i` of the weight vector corresponds to the `i`-th requested
ticker. With duplicate ids the keys instead collapse to first occurrences
(see the counterexample and C10). -/
theorem claim4_column_order {α : Type} [Field α] [DecidableEq α]
    (u : String → Nat → Nat → AxiosResult α) (days : Nat)
    (coinIds : List String) (cache cache' : List ((String × Nat) ×
      CacheEntry α)) (now now' : Nat) (prices : List (String × List α))
    (hnd : coinIds.Nodup)
    (h : fetchPrices u days coinIds [] cache now = .ok (prices, cache', now')) :
    prices.map Prod.fst = coinIds ∧
    ∀ (log : α → α) (rows : List (List α)),
      computeReturns log prices = .ok rows →
      ∀ i : Nat, i < rows.length →
        rows[i]? = some (prices.map fun p =>
          log ((p.2.drop (p.2.length - minSeriesLength prices)).getD (i + 1)
              0 /
            (p.2.drop (p.2.length - minSeriesLength prices)).getD i 0)) := by
  have hkeys : prices.map Prod.fst = coinIds := by
    simpa using fetchPrices_keys_nodup u days coinIds [] prices cache cache'
      now now' hnd (by simp) h
  refine ⟨hkeys, ?_⟩
  intro log rows hcr i hi
  by_cases h1 : prices = []
  · subst h1
    rw [computeReturns] at hcr
    simp only [List.isEmpty_nil, if_true, Except.ok.injEq] at hcr
    subst hcr
    exact absurd hi (by simp)
  · by_cases h2 : minSeriesLength prices < 2
    · rw [computeReturns, if_neg (by simpa using h1), if_pos h2] at hcr
      exact absurd hcr (by simp)
    · rw [computeReturns_ok log prices h1 (by omega)] at hcr
      injection hcr with hr
      subst hr
      rw [List.length_map, List.length_range] at hi
      rw [List.getElem?_map, List.getElem?_range hi, Option.map_some']

/-- Witness for C4 (amended): two distinct ids answered from a warm cache
keep their request order as mapping keys and matrix columns. -/
theorem claim4_witness :
    ∃ prices : List (String × List ℚ),
      fetchPrices (fun _ _ _ => (.errNoResp : AxiosResult ℚ)) 30 ["a", "b"]
        [] [(("a", 30), ⟨[1, 2], 0⟩), (("b", 30), ⟨[1, 3], 0⟩)] 0 =
        .ok (prices, [(("a", 30), ⟨[1, 2], 0⟩), (("b", 30), ⟨[1, 3], 0⟩)], 0)
      ∧ prices.map Prod.fst = ["a", "b"] := by
  have h : fetchPrices (fun _ _ _ => (.errNoResp : AxiosResult ℚ)) 30
      ["a", "b"] [] [(("a", 30), ⟨[1, 2], 0⟩), (("b", 30), ⟨[1, 3], 0⟩)] 0 =
      .ok ([("a", [1, 2]), ("b", [1, 3])],
        [(("a", 30), ⟨[1, 2], 0⟩), (("b", 30), ⟨[1, 3], 0⟩)], 0) := by decide
  exact ⟨[("a", [1, 2]), ("b", [1, 3])], h,
    (claim4_column_order (fun _ _ _ => (.errNoResp : AxiosResult ℚ)) 30
      ["a", "b"] _ _ 0 0 _ (by decide) h).1⟩

/-- C10: a request with duplicate resolved ids yields a mapping with
exactly one entry per distinct id (keys are pairwise distinct and cover
exactly the requested ids); the weight vector of a successful downstream
pipeline run has one entry per mapping entry, not per requested ticker; and
`formatWeights` pairs each surplus ticker position (at or beyond the weight
count) with no weight at all. -/
theorem claim10_duplicate_ids {α : Type} [Field α] [DecidableEq α]
    (u : String → Nat → Nat → AxiosResult α) (days : Nat)
    (coinIds : List String) (cache cache' : List ((String × Nat) ×
      CacheEntry α)) (now now' : Nat) (prices : List (String × List α))
    (h : fetchPrices u days coinIds [] cache now = .ok (prices, cache', now')) :
    (prices.map Prod.fst).Nodup ∧
    (∀ x, x ∈ prices.map Prod.fst ↔ x ∈ coinIds) ∧
    (∀ (log : α → α) (w : List α),
      (computeReturns log prices >>= optimizePortfolio) = .ok w →
      w.length = prices.length) ∧
    (∀ (w : List α) (i : Nat), w.length ≤ i →
      (formatWeights coinIds w)[i]? = (coinIds[i]?).map fun s => (s, none)) := by
  obtain ⟨hnd, hmem⟩ := fetchPrices_keys_complete u days coinIds [] prices
    cache cache' now now' (by simp) h
  refine ⟨hnd, fun x => by simpa using hmem x, ?_, ?_⟩
  · intro log w hw
    rcases hcr : computeReturns log prices with e | rows
    · rw [hcr, except_bind_error] at hw
      exact absurd hw (by simp)
    · rw [hcr, except_bind_ok] at hw
      by_cases hrl : rows.length = 0
      · rw [optimizePortfolio, if_pos hrl] at hw
        exact absurd hw (by simp)
      · have hne : rows ≠ [] := by
          intro hcon; rw [hcon] at hrl; exact hrl rfl
        rcases hminv : matInv (covMatrix (toMat rows.length
            rows.headI.length rows)) with _ | M
        · rw [optimizePortfolio, if_neg hrl] at hw
          simp only [hminv] at hw
          exact absurd hw (by simp)
        · rw [optimizePortfolio_ok rows hne M hminv] at hw
          injection hw with hw'
          subst hw'
          rw [List.length_ofFn]
          by_cases h1 : prices = []
          · subst h1
            rw [computeReturns] at hcr
            simp only [List.isEmpty_nil, if_true, Except.ok.injEq] at hcr
            exact absurd hcr.symm hne
          · by_cases h2 : minSeriesLength prices < 2
            · rw [computeReturns, if_neg (by simpa using h1), if_pos h2]
                at hcr
              exact absurd hcr (by simp)
            · obtain ⟨rows', hok', hlen', hhead', hne'⟩ :=
                computeReturns_shape log prices h1 (by omega)
              rw [hok'] at hcr
              injection hcr with e
              subst e
              exact hhead'
  · intro w i hwi
    rw [formatWeights, List.getElem?_map, List.getElem?_enum]
    rcases hci : coinIds[i]? with _ | s
    · simp [hci]
    · simp [hci, List.getElem?_eq_none hwi]

/-- Witness for C10: the duplicate request `["a", "a", "b"]` answered from
a warm cache yields two mapping entries, and the optimizer returns two
weights for the three requested tickers. -/
theorem claim10_witness :
    ∃ prices : List (String × List ℚ),
      fetchPrices (fun _ _ _ => (.errNoResp : AxiosResult ℚ)) 30
        ["a", "a", "b"] []
        [(("a", 30), ⟨[1, 1, 3, 6], 0⟩),
         (("b", 30), ⟨[1, 1/2, 7/10, 77/100], 0⟩)] 0 =
        .ok (prices,
          [(("a", 30), ⟨[1, 1, 3, 6], 0⟩),
           (("b", 30), ⟨[1, 1/2, 7/10, 77/100], 0⟩)], 0) ∧
      (prices.map Prod.fst).Nodup ∧
      (∀ x, x ∈ prices.map Prod.fst ↔ x ∈ ["a", "a", "b"]) ∧
      ∀ w : List ℚ, (computeReturns id prices >>= optimizePortfolio) =
        .ok w → w.length = prices.length := by
  have hf : fetchPrices (fun _ _ _ => (.errNoResp : AxiosResult ℚ)) 30
      ["a", "a", "b"] []
      [(("a", 30), ⟨[1, 1, 3, 6], 0⟩),
       (("b", 30), ⟨[1, 1/2, 7/10, 77/100], 0⟩)] 0 =
      .ok ([("a", [1, 1, 3, 6]), ("b", [1, 1/2, 7/10, 77/100])],
        [(("a", 30), ⟨[1, 1, 3, 6], 0⟩),
         (("b", 30), ⟨[1, 1/2, 7/10, 77/100], 0⟩)], 0) := by decide
  have h := claim10_duplicate_ids (fun _ _ _ => (.errNoResp : AxiosResult ℚ))
    30 ["a", "a", "b"] _ _ 0 0 _ hf
  exact ⟨_, hf, h.1, h.2.1, fun w => h.2.2.1 id w⟩
